import Mathlib

/-!
Verification of the product-catalog web application (`app.py`).

The development shallowly embeds the pieces of `app.py` that the verified
properties concern:

* the catalog loader `load_product_database` (CSV rows into `Product` records),
* the match-and-rank logic of the `/process` route (`process`),
* the activity journal `log_activity`,
* the authentication path `login` with `hash_password` / `verify_password`.

Machine floats (`price`) are modelled as rationals; the SHA-256 digest, the
random salt bytes and the CSV parser are modelled as explicit parameters,
since the program calls external libraries for them.  File-system effects
(reading a possibly-corrupt JSON file, a failing rewrite) are made explicit
arguments and `Except` results.  Python string methods (`lower`, `strip`,
`split`, `in`) are embedded as structurally recursive functions on the
character lists underlying `String`.
-/

/-! ### Python string primitives -/

/-- Python `s.lower()` (ASCII case folding, as exercised by the app). -/
def pyLower (s : String) : String :=
  String.mk (s.data.map Char.toLower)

/-- Python `s.strip()`: drop leading and trailing whitespace. -/
def pyStrip (s : String) : String :=
  String.mk
    (((s.data.dropWhile Char.isWhitespace).reverse.dropWhile
      Char.isWhitespace).reverse)

/-- Worker for Python `s.split()`: `cur` is the current word, reversed. -/
def splitWsAux (cur : List Char) : List Char → List (List Char)
  | [] => if cur = [] then [] else [cur.reverse]
  | c :: rest =>
    if c.isWhitespace then
      if cur = [] then splitWsAux [] rest else cur.reverse :: splitWsAux [] rest
    else splitWsAux (c :: cur) rest

/-- Python `s.split()`: maximal whitespace-free runs, no empty tokens. -/
def pySplitWs (s : String) : List String :=
  (splitWsAux [] s.data).map String.mk

/-- `startsWithCh hay needle` is true iff `needle` is a prefix of `hay`
(character lists). -/
def startsWithCh : List Char → List Char → Bool
  | _, [] => true
  | [], _ :: _ => false
  | a :: hay, b :: nd => a == b && startsWithCh hay nd

/-- `hasSub needle hay` is Python's `needle in hay`: contiguous substring
containment on character lists. -/
def hasSub (needle : List Char) : List Char → Bool
  | [] => startsWithCh [] needle
  | a :: t => startsWithCh (a :: t) needle || hasSub needle t

/-- Python's `needle in hay` on strings. -/
def strContains (hay needle : String) : Bool :=
  hasSub needle.data hay.data

theorem startsWithCh_iff (hay nd : List Char) :
    startsWithCh hay nd = true ↔ ∃ t, nd ++ t = hay := by
  induction nd generalizing hay with
  | nil => simp [startsWithCh]
  | cons b nd ih =>
    cases hay with
    | nil => simp [startsWithCh]
    | cons a hay =>
      simp only [startsWithCh, Bool.and_eq_true, beq_iff_eq, ih]
      constructor
      · rintro ⟨rfl, t, rfl⟩
        exact ⟨t, rfl⟩
      · rintro ⟨t, h⟩
        injection h with h1 h2
        exact ⟨h1.symm, t, h2⟩

theorem hasSub_iff (nd hay : List Char) :
    hasSub nd hay = true ↔ ∃ s t, s ++ (nd ++ t) = hay := by
  induction hay with
  | nil =>
    simp only [hasSub, startsWithCh_iff]
    constructor
    · rintro ⟨t, h⟩
      exact ⟨[], t, h⟩
    · rintro ⟨s, t, h⟩
      rcases List.append_eq_nil.mp h with ⟨rfl, h2⟩
      exact ⟨t, h2⟩
  | cons a hay ih =>
    simp only [hasSub, Bool.or_eq_true, startsWithCh_iff, ih]
    constructor
    · rintro (⟨t, h⟩ | ⟨s, t, h⟩)
      · exact ⟨[], t, h⟩
      · exact ⟨a :: s, t, by simp [← h]⟩
    · rintro ⟨s, t, h⟩
      cases s with
      | nil => exact Or.inl ⟨t, h⟩
      | cons x s =>
        injection h with h1 h2
        exact Or.inr ⟨s, t, h2⟩

theorem strContains_iff (hay needle : String) :
    strContains hay needle = true ↔ ∃ s t, s ++ (needle.data ++ t) = hay.data :=
  hasSub_iff needle.data hay.data

/-! ### The product record

Field for field the dict built by `load_product_database`. -/

structure Product where
  id : ℕ
  name : String
  category : String
  store : String
  price : ℚ
  currency : String
  url : String
  rating : String
  brand : String
  model_id : String
  stock : String
  discount_percent : ℚ
  description : String
  image_url : String
deriving DecidableEq, Repr

/-! ### Match engine (`/process` route)

The route lowers and strips the submitted keywords once
(`request.form.get('keywords', '').lower().strip()`), then for each catalog
product computes `cat_match` (symmetric category/label substring test) and
`key_match` (any non-empty keyword token occurring in the lowered
`"name brand category"` string), keeping the product by `key_match` when
keywords are present and by `cat_match` otherwise.  `matches.sort(key=price)`
is Python's stable sort, embedded as insertion sort on the price order;
the global best price is `matches[0]['price']` of the sorted list (None when
empty). -/

/-- `f"{name} {brand} {category}".lower()` of the route. -/
def target_str (p : Product) : String :=
  pyLower (p.name ++ " " ++ p.brand ++ " " ++ p.category)

/-- `(label.lower() in p_cat) or (p_cat in label.lower())` with
`p_cat = category.lower()`. -/
def cat_match (label : String) (p : Product) : Bool :=
  strContains (pyLower p.category) (pyLower label)
    || strContains (pyLower label) (pyLower p.category)

/-- `any(word and word in target_str for word in keywords.split())`
(the `word and` guard keeps only non-empty tokens; `split()` produces
none anyway). -/
def key_match (keywords : String) (p : Product) : Bool :=
  (pySplitWs keywords).any
    (fun w => !(w == "") && strContains (target_str p) w)

/-- Whether the loop appends `p` to `matches`, given the already-normalized
keywords string. -/
def record_matches (label keywords : String) (p : Product) : Bool :=
  if keywords ≠ "" then key_match keywords p else cat_match label p

/-- The `matches` list accumulated by the route's loop, in catalog order. -/
def find_matches (db : List Product) (label keywords : String) : List Product :=
  db.filter (record_matches label keywords)

/-- Price order used by `matches.sort(key=lambda x: x['price'])`. -/
def priceLe (a b : Product) : Prop := a.price ≤ b.price

instance : DecidableRel priceLe := fun a b =>
  inferInstanceAs (Decidable (a.price ≤ b.price))

instance : IsTotal Product priceLe := ⟨fun a b => le_total a.price b.price⟩

instance : IsTrans Product priceLe := ⟨fun _ _ _ h1 h2 => le_trans h1 h2⟩

/-- The `/process` route's match-and-rank pipeline: normalize the raw
keywords, filter the catalog, sort stably by price, and report the sorted
matches together with the global best price (`matches[0]['price']`, `None`
when there is no match; sorting the empty list is the identity, so the
branch on `if matches:` is collapsed). -/
def process (db : List Product) (label kwRaw : String) :
    List Product × Option ℚ :=
  let keywords := pyStrip (pyLower kwRaw)
  let ms := find_matches db label keywords
  let sorted := List.insertionSort priceLe ms
  (sorted, sorted.head?.map (fun p => p.price))

/-! ### Helper lemmas about `process` -/

/-- Membership in the ranked result list is membership in the filtered
catalog (sorting permutes). -/
theorem mem_process_fst (db : List Product) (label kwRaw : String) (p : Product) :
    p ∈ (process db label kwRaw).1 ↔
      p ∈ db ∧ record_matches label (pyStrip (pyLower kwRaw)) p = true := by
  simp only [process]
  rw [(List.perm_insertionSort priceLe _).mem_iff]
  simp [find_matches, List.mem_filter]

/-- `key_match` holds iff some non-empty whitespace token of the keywords
occurs as a contiguous substring of the lowered name/brand/category string. -/
theorem key_match_iff (keywords : String) (p : Product) :
    key_match keywords p = true ↔
      ∃ w ∈ pySplitWs keywords,
        w ≠ "" ∧ ∃ s t, s ++ (w.data ++ t) = (target_str p).data := by
  simp only [key_match, List.any_eq_true, Bool.and_eq_true, Bool.not_eq_true',
    beq_eq_false_iff_ne, strContains_iff, ne_eq]

/-- `cat_match` is the symmetric substring test between the lowered category
and the lowered label. -/
theorem cat_match_iff (label : String) (p : Product) :
    cat_match label p = true ↔
      ((∃ s t, s ++ ((pyLower label).data ++ t) = (pyLower p.category).data) ∨
       (∃ s t, s ++ ((pyLower p.category).data ++ t) = (pyLower label).data)) := by
  simp only [cat_match, Bool.or_eq_true, strContains_iff]

/-- With non-empty keywords the per-record predicate ignores the label. -/
theorem record_matches_of_keywords (label keywords : String) (h : keywords ≠ "") :
    record_matches label keywords = key_match keywords := by
  funext p
  simp [record_matches, h]

/-- C1 — with non-empty (post-trim) keywords, matching is keyword-only: the
predicted label is never consulted, and a record is kept exactly when some
whitespace token of the keywords occurs in its lowered name/brand/category
concatenation. -/
theorem keyword_mode_exclusive (db : List Product) (label1 label2 kwRaw : String)
    (h : pyStrip (pyLower kwRaw) ≠ "") :
    process db label1 kwRaw = process db label2 kwRaw ∧
    ∀ p : Product, p ∈ (process db label1 kwRaw).1 ↔
      p ∈ db ∧ ∃ w ∈ pySplitWs (pyStrip (pyLower kwRaw)),
        w ≠ "" ∧ ∃ s t, s ++ (w.data ++ t) = (target_str p).data := by
  constructor
  · simp only [process, find_matches, record_matches_of_keywords _ _ h]
  · intro p
    rw [mem_process_fst]
    simp only [record_matches, if_pos h, key_match_iff]

/-- C2 — with empty (post-trim) keywords, matching is the symmetric
substring test between the record's category and the predicted label, both
case-folded. -/
theorem label_mode_symmetric (db : List Product) (label kwRaw : String)
    (hkw : pyStrip (pyLower kwRaw) = "") (hl : label ≠ "") :
    ∀ p : Product, p ∈ (process db label kwRaw).1 ↔
      p ∈ db ∧
        ((∃ s t, s ++ ((pyLower label).data ++ t) = (pyLower p.category).data) ∨
         (∃ s t, s ++ ((pyLower p.category).data ++ t) = (pyLower label).data)) := by
  intro p
  rw [mem_process_fst]
  simp only [record_matches, hkw, ne_eq, not_true_eq_false, if_false,
    cat_match_iff]

/-! ### Ranking: sortedness, stability, global best price -/

/-- Insertion sort on the price order is stable: the sublist of results
with any fixed price is exactly the sublist of inputs with that price, in
the original order. -/
theorem filter_price_insertionSort (l : List Product) (q : ℚ) :
    (List.insertionSort priceLe l).filter (fun p => p.price == q)
      = l.filter (fun p => p.price == q) := by
  induction l with
  | nil => rfl
  | cons a l ih =>
    have hsplit :
        (List.insertionSort priceLe l).takeWhile (fun b => decide ¬priceLe a b)
          ++ (List.insertionSort priceLe l).dropWhile (fun b => decide ¬priceLe a b)
          = List.insertionSort priceLe l :=
      List.takeWhile_append_dropWhile _ _
    show (List.orderedInsert priceLe a (List.insertionSort priceLe l)).filter _ = _
    rw [List.orderedInsert_eq_take_drop, List.filter_append]
    by_cases hq : a.price = q
    · have hnil :
          ((List.insertionSort priceLe l).takeWhile
            (fun b => decide ¬priceLe a b)).filter (fun p => p.price == q) = [] := by
        rw [List.filter_eq_nil_iff]
        intro x hx
        have hlt := List.mem_takeWhile_imp hx
        simp only [decide_eq_true_eq, priceLe] at hlt
        simp only [beq_iff_eq]
        intro hxq
        exact hlt (by rw [hxq, hq])
      have hdrop :
          ((List.insertionSort priceLe l).dropWhile
            (fun b => decide ¬priceLe a b)).filter (fun p => p.price == q)
            = l.filter (fun p => p.price == q) := by
        have := congrArg (List.filter (fun p => p.price == q)) hsplit
        rw [List.filter_append, hnil, List.nil_append] at this
        rw [this, ih]
      have hqt : (a.price == q) = true := beq_iff_eq.mpr hq
      rw [hnil, List.nil_append]
      simp only [List.filter_cons, hqt, if_true, hdrop]
    · have hfa : (a.price == q) = false := by
        simp [hq]
      simp only [List.filter_cons, hfa, Bool.false_eq_true, if_false]
      rw [← List.filter_append, hsplit, ih]

/-- C3 — the result list is sorted by non-decreasing price; records of any
fixed price appear exactly as they do in the catalog (stability); and when
the match set is non-empty the reported global best price is the minimum
matched price. -/
theorem results_sorted_stable_best (db : List Product) (label kwRaw : String)
    (h : find_matches db label (pyStrip (pyLower kwRaw)) ≠ []) :
    List.Sorted priceLe (process db label kwRaw).1 ∧
    (∀ q : ℚ, (process db label kwRaw).1.filter (fun p => p.price == q)
        = db.filter
            (fun p => (p.price == q) && record_matches label (pyStrip (pyLower kwRaw)) p)) ∧
    ∃ q : ℚ, (process db label kwRaw).2 = some q ∧
      q ∈ (find_matches db label (pyStrip (pyLower kwRaw))).map (fun p => p.price) ∧
      ∀ p ∈ find_matches db label (pyStrip (pyLower kwRaw)), q ≤ p.price := by
  refine ⟨?_, ?_, ?_⟩
  · simp only [process]
    exact List.sorted_insertionSort priceLe _
  · intro q
    simp only [process]
    rw [filter_price_insertionSort]
    simp only [find_matches]
    rw [List.filter_filter]
  · have hsorted :=
      List.sorted_insertionSort priceLe (find_matches db label (pyStrip (pyLower kwRaw)))
    have hperm :=
      List.perm_insertionSort priceLe (find_matches db label (pyStrip (pyLower kwRaw)))
    simp only [process]
    cases hSc : List.insertionSort priceLe (find_matches db label (pyStrip (pyLower kwRaw))) with
    | nil =>
      rw [hSc] at hperm
      exact absurd hperm.symm.eq_nil h
    | cons r rest =>
      rw [hSc] at hsorted hperm
      refine ⟨r.price, rfl, ?_, ?_⟩
      · exact List.mem_map_of_mem _ (hperm.mem_iff.mp (List.mem_cons_self r rest))
      · intro p hp
        rcases List.mem_cons.mp (hperm.mem_iff.mpr hp) with hpr | hpr
        · rw [hpr]
        · exact List.rel_of_sorted_cons hsorted p hpr

/-! ### Concrete sample catalog (spec §8 examples) -/

def nikeShoes : Product :=
  { id := 1, name := "Nike Air Max 270", category := "shoes",
    store := "Sportsmart", price := 129, currency := "₹", url := "#",
    rating := "4.0", brand := "Nike", model_id := "N/A", stock := "In Stock",
    discount_percent := 0, description := "No description available.",
    image_url := "" }

def phoneA : Product :=
  { id := 1, name := "Phone A", category := "smartphone",
    store := "Techworld", price := 99999 / 100, currency := "₹", url := "#",
    rating := "4.0", brand := "Generic", model_id := "N/A",
    stock := "In Stock", discount_percent := 0,
    description := "No description available.", image_url := "" }

def phoneB : Product :=
  { id := 2, name := "Phone B", category := "smartphone",
    store := "Techworld", price := 84999 / 100, currency := "₹", url := "#",
    rating := "4.0", brand := "Generic", model_id := "N/A",
    stock := "In Stock", discount_percent := 0,
    description := "No description available.", image_url := "" }

/-- Witness for C1 at the spec's `"nike shoes"` example. -/
theorem keyword_mode_exclusive_witness :
    (pyStrip (pyLower "nike shoes") ≠ "") ∧
    (process [nikeShoes] "watch" "nike shoes" = process [nikeShoes] "car" "nike shoes" ∧
     ∀ p : Product, p ∈ (process [nikeShoes] "watch" "nike shoes").1 ↔
       p ∈ [nikeShoes] ∧ ∃ w ∈ pySplitWs (pyStrip (pyLower "nike shoes")),
         w ≠ "" ∧ ∃ s t, s ++ (w.data ++ t) = (target_str p).data) :=
  ⟨by decide, keyword_mode_exclusive [nikeShoes] "watch" "car" "nike shoes" (by decide)⟩

/-- Witness for C2 at the spec's `"Smartphone"` example. -/
theorem label_mode_symmetric_witness :
    (pyStrip (pyLower "") = "") ∧ ("Smartphone" ≠ "") ∧
    ∀ p : Product, p ∈ (process [phoneA, phoneB] "Smartphone" "").1 ↔
      p ∈ [phoneA, phoneB] ∧
        ((∃ s t, s ++ ((pyLower "Smartphone").data ++ t) = (pyLower p.category).data) ∨
         (∃ s t, s ++ ((pyLower p.category).data ++ t) = (pyLower "Smartphone").data)) :=
  ⟨by decide, by decide,
    label_mode_symmetric [phoneA, phoneB] "Smartphone" "" (by decide) (by decide)⟩

/-- Witness for C3 at the spec's two-smartphone example. -/
theorem results_sorted_stable_best_witness :
    (find_matches [phoneA, phoneB] "Smartphone" (pyStrip (pyLower "")) ≠ []) ∧
    (List.Sorted priceLe (process [phoneA, phoneB] "Smartphone" "").1 ∧
     (∀ q : ℚ, (process [phoneA, phoneB] "Smartphone" "").1.filter (fun p => p.price == q)
         = [phoneA, phoneB].filter
             (fun p => (p.price == q) && record_matches "Smartphone" (pyStrip (pyLower "")) p)) ∧
     ∃ q : ℚ, (process [phoneA, phoneB] "Smartphone" "").2 = some q ∧
       q ∈ (find_matches [phoneA, phoneB] "Smartphone" (pyStrip (pyLower ""))).map (fun p => p.price) ∧
       ∀ p ∈ find_matches [phoneA, phoneB] "Smartphone" (pyStrip (pyLower "")), q ≤ p.price) :=
  ⟨by decide, results_sorted_stable_best [phoneA, phoneB] "Smartphone" "" (by decide)⟩

/-! ### Catalog loader (`load_product_database`)

A source file is its base name (the store name is the base name,
title-cased) plus either a read failure (`pd.read_csv` raising) or a list
of rows with normalized (lowercase, trimmed) column names.  A row cell is
`none` when the column is absent; the `price` cell is additionally
`some none` when the cell is present but `float()` raises on it.  The
per-file `try/except` catches both failure modes: a read failure skips the
file, and a `float()` failure ends that file's row loop — rows appended
before it stay in the global list. -/

/-- Python `s.title()` (capitalize each alphabetic run). -/
def titleCaseGo : Bool → List Char → List Char
  | _, [] => []
  | prevAlpha, c :: rest =>
    (if c.isAlpha then (if prevAlpha then c.toLower else c.toUpper) else c)
      :: titleCaseGo c.isAlpha rest

/-- Python `s.title()` on strings. -/
def titleCase (s : String) : String :=
  String.mk (titleCaseGo false s.data)

structure Row where
  name : Option String
  price : Option (Option ℚ)
  category : Option String
  url : Option String
  rating : Option String
  brand : Option String
  model_id : Option String
  stock : Option String
  discount_percent : Option ℚ
  description : Option String
  image_url : Option String
deriving DecidableEq, Repr

inductive CsvData where
  | readError (msg : String)
  | table (rows : List Row)
deriving DecidableEq, Repr

structure CsvFile where
  baseName : String
  data : CsvData
deriving DecidableEq, Repr

/-- The dict literal appended for an accepted row (`i` is
`len(products_list) + 1` at append time). -/
def mkProduct (store : String) (i : ℕ) (nm : String) (pr : ℚ) (r : Row) :
    Product :=
  { id := i,
    name := pyStrip nm,
    category := pyLower (r.category.getD "unknown"),
    store := store,
    price := pr,
    currency := "₹",
    url := r.url.getD "#",
    rating := r.rating.getD "4.0",
    brand := titleCase (r.brand.getD "Generic"),
    model_id := r.model_id.getD "N/A",
    stock := r.stock.getD "In Stock",
    discount_percent := r.discount_percent.getD 0,
    description := r.description.getD "No description available.",
    image_url := r.image_url.getD "" }

/-- The `for _, row in df.iterrows()` loop over one file, acting on the
global `products_list` accumulator: a row missing `name` or `price` is
skipped; a present but unconvertible price raises, ending the file's loop
with the accumulator as is. -/
def processRows (store : String) : List Product → List Row → List Product
  | acc, [] => acc
  | acc, r :: rest =>
    match r.name, r.price with
    | some nm, some (some pr) =>
        processRows store (acc ++ [mkProduct store (acc.length + 1) nm pr r]) rest
    | some _, some none => acc
    | _, _ => processRows store acc rest

/-- One iteration of the `for filename in csv_files` loop. -/
def fileStep (acc : List Product) (f : CsvFile) : List Product :=
  match f.data with
  | CsvData.readError _ => acc
  | CsvData.table rows => processRows (titleCase f.baseName) acc rows

/-- `load_product_database()`: fold the per-file step over the files,
starting from the empty `products_list`. -/
def load_product_database (files : List CsvFile) : List Product :=
  files.foldl fileStep []

/-- A row supplying both a `name` and a `price` column. -/
def rowComplete (r : Row) : Bool :=
  r.name.isSome && r.price.isSome

/-- A file that reads successfully and whose present prices all convert. -/
def fileRowsOk (f : CsvFile) : Bool :=
  match f.data with
  | CsvData.readError _ => false
  | CsvData.table rows => rows.all (fun r => !(r.price == some none))

/-- Number of accepted rows of one file (in the failure-free case). -/
def fileGoodCount (f : CsvFile) : ℕ :=
  match f.data with
  | CsvData.readError _ => 0
  | CsvData.table rows => (rows.filter rowComplete).length

/-! ### Loader lemmas -/

theorem processRows_skip (store : String) (acc : List Product) (r : Row)
    (rest : List Row) (h : r.name = none ∨ r.price = none) :
    processRows store acc (r :: rest) = processRows store acc rest := by
  rcases h with h | h <;>
    · cases hn : r.name <;> cases hp : r.price <;> simp_all [processRows]

theorem processRows_accept (store : String) (acc : List Product) (r : Row)
    (rest : List Row) (nm : String) (pr : ℚ)
    (hn : r.name = some nm) (hp : r.price = some (some pr)) :
    processRows store acc (r :: rest)
      = processRows store (acc ++ [mkProduct store (acc.length + 1) nm pr r]) rest := by
  simp [processRows, hn, hp]

theorem processRows_abort (store : String) (acc : List Product) (r : Row)
    (rest : List Row) (hn : r.name.isSome = true) (hp : r.price = some none) :
    processRows store acc (r :: rest) = acc := by
  obtain ⟨nm, hnm⟩ := Option.isSome_iff_exists.mp hn
  simp [processRows, hnm, hp]

theorem processRows_ids (store : String) (rows : List Row) :
    ∀ acc : List Product,
      acc.map (fun p => p.id) = List.range' 1 acc.length →
      (processRows store acc rows).map (fun p => p.id)
        = List.range' 1 (processRows store acc rows).length := by
  induction rows with
  | nil => intro acc h; simpa [processRows] using h
  | cons r rest ih =>
    intro acc h
    cases hn : r.name with
    | none =>
      rw [processRows_skip store acc r rest (Or.inl hn)]
      exact ih acc h
    | some nm =>
      cases hp : r.price with
      | none =>
        rw [processRows_skip store acc r rest (Or.inr hp)]
        exact ih acc h
      | some pc =>
        cases pc with
        | none =>
          rw [processRows_abort store acc r rest (by simp [hn]) hp]
          exact h
        | some pr =>
          rw [processRows_accept store acc r rest nm pr hn hp]
          apply ih
          rw [List.map_append, h]
          simp only [List.length_append, List.map_cons, List.map_nil,
            List.length_cons, List.length_nil, mkProduct]
          rw [List.range'_concat]
          simp [Nat.add_comm]

/-- C4 — the loaded catalog's identifiers are exactly `1, 2, ..., n`:
a single running counter across all files, dense, gap- and duplicate-free. -/
theorem identifiers_dense (files : List CsvFile) :
    (load_product_database files).map (fun p => p.id)
      = List.range' 1 (load_product_database files).length := by
  suffices h : ∀ acc : List Product,
      acc.map (fun p => p.id) = List.range' 1 acc.length →
      (List.foldl fileStep acc files).map (fun p => p.id)
        = List.range' 1 (List.foldl fileStep acc files).length by
    exact h [] (by simp)
  induction files with
  | nil => intro acc h; simpa using h
  | cons f fs ih =>
    intro acc h
    simp only [List.foldl_cons]
    apply ih
    cases hd : f.data with
    | readError m => simpa [fileStep, hd] using h
    | table rows =>
      simp only [fileStep, hd]
      exact processRows_ids _ rows acc h

theorem processRows_length (store : String) (rows : List Row) :
    ∀ acc : List Product, (∀ r ∈ rows, r.price ≠ some none) →
      (processRows store acc rows).length
        = acc.length + (rows.filter rowComplete).length := by
  induction rows with
  | nil => intro acc _; simp [processRows]
  | cons r rest ih =>
    intro acc h
    have hrest : ∀ x ∈ rest, x.price ≠ some none :=
      fun x hx => h x (List.mem_cons_of_mem r hx)
    cases hn : r.name with
    | none =>
      rw [processRows_skip store acc r rest (Or.inl hn), ih acc hrest]
      simp [List.filter_cons, rowComplete, hn]
    | some nm =>
      cases hp : r.price with
      | none =>
        rw [processRows_skip store acc r rest (Or.inr hp), ih acc hrest]
        simp [List.filter_cons, rowComplete, hp]
      | some pc =>
        cases pc with
        | none => exact absurd hp (h r (List.mem_cons_self r rest))
        | some pr =>
          rw [processRows_accept store acc r rest nm pr hn hp, ih _ hrest]
          simp only [List.filter_cons, rowComplete, hn, hp, Option.isSome_some,
            Bool.and_self, if_true, List.length_append, List.length_cons,
            List.length_nil]
          omega

/-- C5 — when every file reads and every present price converts, the loaded
record count is the number of rows across all files supplying both a name
and a price; rows missing either contribute nothing. -/
theorem load_count (files : List CsvFile)
    (h : ∀ f ∈ files, fileRowsOk f = true) :
    (load_product_database files).length = (files.map fileGoodCount).sum := by
  suffices hs : ∀ fs : List CsvFile, (∀ f ∈ fs, fileRowsOk f = true) →
      ∀ acc : List Product,
      (List.foldl fileStep acc fs).length
        = acc.length + (fs.map fileGoodCount).sum by
    simpa using hs files h []
  intro fs
  induction fs with
  | nil => intro _ acc; simp
  | cons f rest ih =>
    intro hfs acc
    have hf := hfs f (List.mem_cons_self f rest)
    have hrest : ∀ g ∈ rest, fileRowsOk g = true :=
      fun g hg => hfs g (List.mem_cons_of_mem f hg)
    simp only [List.foldl_cons, List.map_cons, List.sum_cons]
    rw [ih hrest]
    cases hd : f.data with
    | readError m => simp [fileRowsOk, hd] at hf
    | table rows =>
      have hrows : ∀ r ∈ rows, r.price ≠ some none := by
        simpa [fileRowsOk, hd, List.all_eq_true] using hf
      simp only [fileStep, hd, fileGoodCount]
      rw [processRows_length (titleCase f.baseName) rows acc hrows]
      omega

theorem processRows_append (store : String) (l1 l2 : List Row) :
    ∀ acc : List Product, (∀ r ∈ l1, r.price ≠ some none) →
      processRows store acc (l1 ++ l2)
        = processRows store (processRows store acc l1) l2 := by
  induction l1 with
  | nil => intro acc _; simp [processRows]
  | cons r rest ih =>
    intro acc h
    have hrest : ∀ x ∈ rest, x.price ≠ some none :=
      fun x hx => h x (List.mem_cons_of_mem r hx)
    cases hn : r.name with
    | none =>
      rw [List.cons_append, processRows_skip store acc r (rest ++ l2) (Or.inl hn),
        processRows_skip store acc r rest (Or.inl hn)]
      exact ih acc hrest
    | some nm =>
      cases hp : r.price with
      | none =>
        rw [List.cons_append, processRows_skip store acc r (rest ++ l2) (Or.inr hp),
          processRows_skip store acc r rest (Or.inr hp)]
        exact ih acc hrest
      | some pc =>
        cases pc with
        | none => exact absurd hp (h r (List.mem_cons_self r rest))
        | some pr =>
          rw [List.cons_append, processRows_accept store acc r (rest ++ l2) nm pr hn hp,
            processRows_accept store acc r rest nm pr hn hp]
          exact ih _ hrest

/-- C6 (amended) — a file whose read fails contributes no records, and a
price-conversion failure on a row keeps that file's earlier accepted
records while dropping the failing and all later rows of that file; in
both cases the remaining files are still processed (the load never
aborts). -/
theorem file_failure_contained (fs1 fs2 : List CsvFile) (base : String)
    (pre post : List Row) (bad : Row)
    (hpre : ∀ r ∈ pre, r.price ≠ some none)
    (hbn : bad.name.isSome = true) (hbp : bad.price = some none) :
    load_product_database
        (fs1 ++ { baseName := base, data := CsvData.table (pre ++ bad :: post) } :: fs2)
      = List.foldl fileStep
          (processRows (titleCase base) (load_product_database fs1) pre) fs2 ∧
    ∀ m : String,
      load_product_database
          (fs1 ++ { baseName := base, data := CsvData.readError m } :: fs2)
        = List.foldl fileStep (load_product_database fs1) fs2 := by
  constructor
  · show List.foldl fileStep [] _ = _
    rw [List.foldl_append, List.foldl_cons]
    have hstep :
        fileStep (List.foldl fileStep [] fs1)
            { baseName := base, data := CsvData.table (pre ++ bad :: post) }
          = processRows (titleCase base) (load_product_database fs1) pre := by
      show processRows (titleCase base) (load_product_database fs1) (pre ++ bad :: post) = _
      rw [processRows_append (titleCase base) pre (bad :: post)
        (load_product_database fs1) hpre]
      exact processRows_abort _ _ bad post hbn hbp
    rw [hstep]
  · intro m
    show List.foldl fileStep [] _ = _
    rw [List.foldl_append, List.foldl_cons]
    rfl

/-! ### Concrete source files for the loader claims -/

def goodRow : Row :=
  { name := some "Widget", price := some (some 5), category := none,
    url := none, rating := none, brand := none, model_id := none,
    stock := none, discount_percent := none, description := none,
    image_url := none }

def noPriceRow : Row :=
  { name := some "Priceless", price := none, category := none,
    url := none, rating := none, brand := none, model_id := none,
    stock := none, discount_percent := none, description := none,
    image_url := none }

def badPriceRow : Row :=
  { name := some "Gadget", price := some none, category := none,
    url := none, rating := none, brand := none, model_id := none,
    stock := none, discount_percent := none, description := none,
    image_url := none }

/-- A file whose second row's price fails to convert, after one accepted
row. -/
def brokenFile : CsvFile :=
  { baseName := "shop", data := CsvData.table [goodRow, badPriceRow] }

/-- Counterexample to C6 as stated: `brokenFile` hits a parse failure on
its second row, yet the load still keeps the record accepted from its
first row — the failing file's contribution is not empty. -/
theorem file_failure_whole_file_cex :
    load_product_database [brokenFile] ≠ []
      ∧ (load_product_database [brokenFile]).length = 1 := by
  constructor
  · decide
  · decide

/-- Witness for C5 on a two-file directory: one complete row, one row with
no price column, one read-correct second file. -/
theorem load_count_witness :
    (∀ f ∈ [({ baseName := "shop", data := CsvData.table [goodRow, noPriceRow] } : CsvFile),
            { baseName := "mart", data := CsvData.table [goodRow] }],
        fileRowsOk f = true) ∧
    (load_product_database
        [({ baseName := "shop", data := CsvData.table [goodRow, noPriceRow] } : CsvFile),
         { baseName := "mart", data := CsvData.table [goodRow] }]).length
      = ([({ baseName := "shop", data := CsvData.table [goodRow, noPriceRow] } : CsvFile),
          { baseName := "mart", data := CsvData.table [goodRow] }].map fileGoodCount).sum :=
  ⟨by decide,
    load_count
      [{ baseName := "shop", data := CsvData.table [goodRow, noPriceRow] },
       { baseName := "mart", data := CsvData.table [goodRow] }] (by decide)⟩

/-- Witness for the amended C6 on a concrete directory: a failing file,
preceded and followed by healthy files. -/
theorem file_failure_contained_witness :
    (∀ r ∈ [goodRow], r.price ≠ some none) ∧
    badPriceRow.name.isSome = true ∧ badPriceRow.price = some none ∧
    (load_product_database
        [{ baseName := "mart", data := CsvData.table [goodRow] },
         { baseName := "shop", data := CsvData.table ([goodRow] ++ badPriceRow :: [goodRow]) }]
      = List.foldl fileStep
          (processRows (titleCase "shop")
            (load_product_database [{ baseName := "mart", data := CsvData.table [goodRow] }])
            [goodRow]) [] ∧
     ∀ m : String,
       load_product_database
           [{ baseName := "mart", data := CsvData.table [goodRow] },
            { baseName := "shop", data := CsvData.readError m }]
         = List.foldl fileStep
             (load_product_database [{ baseName := "mart", data := CsvData.table [goodRow] }]) []) :=
  ⟨by decide, by decide, by decide,
    file_failure_contained
      [{ baseName := "mart", data := CsvData.table [goodRow] }] []
      "shop" [goodRow] [goodRow] badPriceRow (by decide) (by decide) (by decide)⟩

/-! ### Activity log (`log_activity`)

The journal file read is wrapped in a bare `try/except: pass` (a missing or
corrupt file leaves `logs = []`), the entry is appended, the list is capped
at its last 1000 elements, and the file is rewritten.  The rewrite
(`open(LOGS_FILE, 'w')` / `json.dump`) is *not* inside any `try`, so an
error there propagates to the caller.  `readResult` is the outcome of the
read (`none`: file absent or unreadable or corrupt), `writeOk` whether the
rewrite succeeds; the result is the persisted journal or the propagated
error. -/

structure LogEntry where
  timestamp : String
  user : String
  action : String
  details : String
  ip : String
deriving DecidableEq, Repr

/-- `log_activity`: read (errors swallowed), append, cap at the most
recent 1000 (`logs[-1000:]`), rewrite (errors propagate). -/
def log_activity (readResult : Option (List LogEntry)) (writeOk : Bool)
    (e : LogEntry) : Except Unit (List LogEntry) :=
  let logs := readResult.getD []
  let appended := logs ++ [e]
  let capped :=
    if appended.length > 1000 then appended.drop (appended.length - 1000)
    else appended
  if writeOk then Except.ok capped else Except.error ()

/-- Counterexample to C7 as stated: when the journal rewrite fails, the
error propagates out of `log_activity` instead of being swallowed. -/
theorem log_activity_write_failure_cex :
    log_activity (some []) false
        { timestamp := "2025-01-01 00:00:00", user := "anonymous",
          action := "SEARCH", details := "", ip := "N/A" }
      = Except.error () := rfl

/-- C7 (amended) — errors while *reading* the journal are swallowed (the
journal is treated as empty, exactly as for an empty file) and the
operation completes normally whenever the rewrite succeeds; an error while
*rewriting* the journal propagates to the caller. -/
theorem log_activity_read_errors_swallowed (r : Option (List LogEntry))
    (e : LogEntry) :
    (∃ l, log_activity r true e = Except.ok l) ∧
    log_activity none true e = Except.ok [e] ∧
    ∀ w : Bool, log_activity none w e = log_activity (some []) w e := by
  refine ⟨⟨_, rfl⟩, ?_, fun w => rfl⟩
  simp [log_activity]

/-- C8 — once the journal (with the new entry) exceeds 1000 entries, the
persisted journal is exactly the suffix of the most recent 1000 entries:
oldest dropped first, survivors in order, the new entry last. -/
theorem log_activity_cap (logs : List LogEntry) (e : LogEntry)
    (h : 1000 ≤ logs.length) :
    log_activity (some logs) true e
        = Except.ok ((logs ++ [e]).drop (logs.length + 1 - 1000)) ∧
    ((logs ++ [e]).drop (logs.length + 1 - 1000)).length = 1000 ∧
    ((logs ++ [e]).drop (logs.length + 1 - 1000)).getLast? = some e := by
  refine ⟨?_, ?_, ?_⟩
  · have hgt : logs.length + 1 > 1000 := by omega
    simp [log_activity, hgt]
  · rw [List.length_drop]
    simp only [List.length_append, List.length_cons, List.length_nil]
    omega
  · have hle : logs.length + 1 - 1000 ≤ logs.length := by omega
    rw [List.drop_append_of_le_length hle, List.getLast?_concat]

/-- A fixed journal entry for concrete instances. -/
def sampleEntry : LogEntry :=
  { timestamp := "2025-01-01 00:00:00", user := "admin@epc.com",
    action := "LOGIN", details := "Successful login", ip := "127.0.0.1" }

/-- Witness for C8 on a full 1000-entry journal. -/
theorem log_activity_cap_witness :
    (1000 ≤ (List.replicate 1000 sampleEntry).length) ∧
    (log_activity (some (List.replicate 1000 sampleEntry)) true sampleEntry
        = Except.ok ((List.replicate 1000 sampleEntry ++ [sampleEntry]).drop
            ((List.replicate 1000 sampleEntry).length + 1 - 1000)) ∧
     ((List.replicate 1000 sampleEntry ++ [sampleEntry]).drop
        ((List.replicate 1000 sampleEntry).length + 1 - 1000)).length = 1000 ∧
     ((List.replicate 1000 sampleEntry ++ [sampleEntry]).drop
        ((List.replicate 1000 sampleEntry).length + 1 - 1000)).getLast?
       = some sampleEntry) :=
  ⟨by simp only [List.length_replicate]; exact Nat.le_refl 1000,
    log_activity_cap (List.replicate 1000 sampleEntry) sampleEntry
      (by simp only [List.length_replicate]; exact Nat.le_refl 1000)⟩

/-! ### Password hashing (`hash_password` / `verify_password`)

`hash_password` draws 16 random bytes (`secrets.token_hex(16)` is their
hex encoding), and stores `salt + ':' + sha256(salt + password).hexdigest()`.
The digest is modelled as an arbitrary function to bytes; both the salt
and the digest reach the stored string hex-encoded.  `verify_password`
splits the stored string at every `':'` (`str.split(':')`), and the
two-element unpacking `salt, hashed = ...` raises — modelled as `none` —
unless the split has exactly two parts. -/

/-- One lowercase hex digit (the encoding used by `token_hex`/`hexdigest`). -/
def hexChar (n : ℕ) : Char :=
  if n < 10 then Char.ofNat (48 + n) else Char.ofNat (87 + n)

/-- Lowercase hex encoding of a byte string. -/
def hexEncode : List ℕ → List Char
  | [] => []
  | b :: rest => hexChar (b / 16 % 16) :: hexChar (b % 16) :: hexEncode rest

/-- Python `s.split(c)` on character lists (splits at every occurrence,
empty parts included). -/
def splitOnChar (c : Char) : List Char → List (List Char)
  | [] => [[]]
  | a :: rest =>
    let r := splitOnChar c rest
    if a == c then [] :: r
    else
      match r with
      | [] => [[a]]
      | h :: t => (a :: h) :: t

/-- `hash_password(password)` with the random salt bytes and the SHA-256
digest function made explicit. -/
def hash_password (digest : List Char → List ℕ) (saltBytes : List ℕ)
    (password : String) : String :=
  let salt := hexEncode saltBytes
  String.mk (salt ++ ':' :: hexEncode (digest (salt ++ password.data)))

/-- `verify_password(stored_password, provided_password)`; `none` models
the uncaught `ValueError` when the stored string does not split into
exactly two parts. -/
def verify_password (digest : List Char → List ℕ) (stored provided : String) :
    Option Bool :=
  match splitOnChar ':' stored.data with
  | [salt, hashed] => some (hexEncode (digest (salt ++ provided.data)) == hashed)
  | _ => none

theorem hexChar_ne_colon (n : ℕ) (h : n < 16) : hexChar n ≠ ':' := by
  interval_cases n <;> decide

theorem colon_not_mem_hexEncode (bs : List ℕ) : ':' ∉ hexEncode bs := by
  induction bs with
  | nil => simp [hexEncode]
  | cons b rest ih =>
    simp only [hexEncode, List.mem_cons, not_or]
    refine ⟨?_, ?_, ih⟩
    · exact fun h => hexChar_ne_colon _ (Nat.mod_lt _ (by norm_num)) h.symm
    · exact fun h => hexChar_ne_colon _ (Nat.mod_lt _ (by norm_num)) h.symm

theorem splitOnChar_of_not_mem (c : Char) (l : List Char) (h : c ∉ l) :
    splitOnChar c l = [l] := by
  induction l with
  | nil => rfl
  | cons a rest ih =>
    have ha : ¬a = c := fun hac => h (hac ▸ List.mem_cons_self a rest)
    have hr : c ∉ rest := fun hc => h (List.mem_cons_of_mem a hc)
    simp only [splitOnChar, ih hr]
    rw [if_neg (by simpa using ha)]

theorem splitOnChar_append (c : Char) (a b : List Char) (ha : c ∉ a) :
    splitOnChar c (a ++ c :: b) = a :: splitOnChar c b := by
  induction a with
  | nil => simp [splitOnChar]
  | cons x rest ih =>
    have hx : ¬x = c := fun hxc => ha (hxc ▸ List.mem_cons_self x rest)
    have hr : c ∉ rest := fun hc => ha (List.mem_cons_of_mem x hc)
    simp only [List.cons_append, splitOnChar]
    rw [if_neg (by simpa using hx),
      show rest.append (c :: b) = rest ++ c :: b from rfl, ih hr]

/-- C10 — verifying a password against the stored form produced by hashing
that same password succeeds, for any digest function and any salt bytes:
hex encodings never contain the `':'` separator, so the stored string
splits back into exactly the salt and the digest. -/
theorem verify_password_roundtrip (digest : List Char → List ℕ)
    (saltBytes : List ℕ) (password : String) :
    verify_password digest (hash_password digest saltBytes password) password
      = some true := by
  show verify_password digest
      (String.mk (hexEncode saltBytes
        ++ ':' :: hexEncode (digest (hexEncode saltBytes ++ password.data))))
      password = some true
  unfold verify_password
  rw [show (String.mk (hexEncode saltBytes
      ++ ':' :: hexEncode (digest (hexEncode saltBytes ++ password.data)))).data
      = hexEncode saltBytes
        ++ ':' :: hexEncode (digest (hexEncode saltBytes ++ password.data)) from rfl]
  rw [splitOnChar_append ':' _ _ (colon_not_mem_hexEncode saltBytes)]
  rw [splitOnChar_of_not_mem ':' _ (colon_not_mem_hexEncode _)]
  simp

/-! ### Login (`/login` POST path)

The route lowercases and strips the submitted email, rejects blank fields,
then looks the email up in the users store; an unknown email and a known
email with a failing password check both flash the same
`'Invalid email or password'` message and redirect to the login page —
`invalidCredentials` below.  A malformed stored hash would raise out of
`verify_password` (`serverError`); a successful check proceeds to the
role-based redirect (`success role`). -/

structure StoredUser where
  username : String
  password : String
  full_name : String
  role : String
  created_at : String
  last_login : Option String
  uploads_count : ℕ
deriving DecidableEq, Repr

inductive LoginOutcome where
  | missingFields
  | invalidCredentials
  | success (role : String)
  | serverError
deriving DecidableEq, Repr

/-- The POST branch of the `/login` route, up to its observable outcome. -/
def login (digest : List Char → List ℕ) (users : List (String × StoredUser))
    (emailRaw password : String) : LoginOutcome :=
  let email := pyLower (pyStrip emailRaw)
  if email = "" ∨ password = "" then LoginOutcome.missingFields
  else
    match users.lookup email with
    | none => LoginOutcome.invalidCredentials
    | some u =>
      match verify_password digest u.password password with
      | some true => LoginOutcome.success u.role
      | some false => LoginOutcome.invalidCredentials
      | none => LoginOutcome.serverError

/-- C9 — an unknown email and a known email with a wrong password produce
the identical `invalidCredentials` outcome: nothing observable
distinguishes which half of the pair was wrong. -/
theorem login_failures_indistinguishable (digest : List Char → List ℕ)
    (users : List (String × StoredUser)) (e1raw pw1 e2raw pw2 : String)
    (u : StoredUser)
    (h1e : pyLower (pyStrip e1raw) ≠ "") (h1p : pw1 ≠ "")
    (h2e : pyLower (pyStrip e2raw) ≠ "") (h2p : pw2 ≠ "")
    (hknown : users.lookup (pyLower (pyStrip e1raw)) = some u)
    (hwrong : verify_password digest u.password pw1 = some false)
    (hunknown : users.lookup (pyLower (pyStrip e2raw)) = none) :
    login digest users e1raw pw1 = LoginOutcome.invalidCredentials ∧
    login digest users e2raw pw2 = LoginOutcome.invalidCredentials ∧
    login digest users e1raw pw1 = login digest users e2raw pw2 := by
  have t1 : login digest users e1raw pw1 = LoginOutcome.invalidCredentials := by
    simp only [login]
    rw [if_neg (by tauto)]
    simp only [hknown, hwrong]
  have t2 : login digest users e2raw pw2 = LoginOutcome.invalidCredentials := by
    simp only [login]
    rw [if_neg (by tauto)]
    simp only [hunknown]
  exact ⟨t1, t2, t1.trans t2.symm⟩

/-- A stored account whose password hash is `"00:11"` under the one-byte
digest `fun _ => [0]` (so any provided password hashes to `"00" ≠ "11"`). -/
def sampleUser : StoredUser :=
  { username := "admin", password := "00:11",
    full_name := "System Administrator", role := "admin",
    created_at := "2025-01-01 00:00:00", last_login := none,
    uploads_count := 0 }

/-- Witness for C9: wrong password for the stored `admin@epc.com` (submitted
with stray casing and spacing) versus an unknown address. -/
theorem login_failures_indistinguishable_witness :
    (pyLower (pyStrip " Admin@EPC.com ") ≠ "") ∧ ("wrongpw" ≠ "") ∧
    (pyLower (pyStrip "ghost@epc.com") ≠ "") ∧ ("any" ≠ "") ∧
    ([("admin@epc.com", sampleUser)].lookup (pyLower (pyStrip " Admin@EPC.com ")) = some sampleUser) ∧
    (verify_password (fun _ => [0]) sampleUser.password "wrongpw" = some false) ∧
    ([("admin@epc.com", sampleUser)].lookup (pyLower (pyStrip "ghost@epc.com")) = none) ∧
    (login (fun _ => [0]) [("admin@epc.com", sampleUser)] " Admin@EPC.com " "wrongpw"
        = LoginOutcome.invalidCredentials ∧
     login (fun _ => [0]) [("admin@epc.com", sampleUser)] "ghost@epc.com" "any"
        = LoginOutcome.invalidCredentials ∧
     login (fun _ => [0]) [("admin@epc.com", sampleUser)] " Admin@EPC.com " "wrongpw"
        = login (fun _ => [0]) [("admin@epc.com", sampleUser)] "ghost@epc.com" "any") :=
  ⟨by decide, by decide, by decide, by decide, by decide, by decide, by decide,
    login_failures_indistinguishable (fun _ => [0]) [("admin@epc.com", sampleUser)]
      " Admin@EPC.com " "wrongpw" "ghost@epc.com" "any" sampleUser
      (by decide) (by decide) (by decide) (by decide) (by decide) (by decide) (by decide)⟩
